import Mathlib

/-!
Verification of the annotation-state and serialization core of the BBox-tool
repository (`src/main.py`), a PyQt bounding-box labeling application.

The Python program keeps the box store in `ImageWidget.results`: a list whose
entries are `[lx, ly, rx, ry]` (an unlabeled box, 4 fields) or
`[lx, ly, rx, ry, idx]` (a labeled box, 5 fields).  The embedding below
represents a box as a structure with an `Option ℕ` label: `none` is the
4-field shape, `some idx` the 5-field shape.  Floating-point arithmetic in the
source is modelled over `ℚ`, and Python's `round` (ties to even) is modelled
exactly by `pyRound`.
-/

namespace BBoxTool

/-- A stored box: `ImageWidget.results` entry.  `label = none` is the 4-field
`[lx, ly, rx, ry]` shape, `label = some idx` the 5-field labeled shape. -/
structure Box where
  lx : ℤ
  ly : ℤ
  rx : ℤ
  ry : ℤ
  label : Option ℕ
deriving DecidableEq, Repr

/-- The process-wide label mode, the text of the `autoLabel` status label,
which is always either `'Manual Label'` or `'Auto Label'`. -/
inductive Mode where
  | manual
  | auto
deriving DecidableEq, Repr

/-- Outcome of a mouse-release finalize, as surfaced to the operator. -/
inductive FinalizeOutcome where
  /-- the two endpoints coincide: the drawn rect is ignored -/
  | discarded
  /-- manual mode with an unlabeled last box: warning popup, rect dropped -/
  | pendingLabelRequired
  /-- a box was appended to the store -/
  | appended
deriving DecidableEq, Repr

/-- `self.results and (len(self.results[-1]) == 4)`: the store is non-empty
and its last box is unlabeled. -/
def lastUnlabeled (results : List Box) : Bool :=
  match results.getLast? with
  | some b => b.label.isNone
  | none => false

/-- Embeds the left-button branch of `ImageWidget.mouseReleaseEvent`
(src/main.py lines 179-205): corner-normalizes the dragged rect, ignores it
when the two endpoints coincide, refuses it in manual mode while the last box
is unlabeled, auto-labels and backfills in auto mode, and otherwise appends
it unlabeled. -/
def mouseReleaseEvent (mode : Mode) (lastIdx : ℕ) (results : List Box)
    (p1x p1y p2x p2y : ℤ) : List Box × FinalizeOutcome :=
  let lx := min p1x p2x
  let ly := min p1y p2y
  let w := |p1x - p2x|
  let h := |p1y - p2y|
  let newLabeled : Box := ⟨lx, ly, lx + w, ly + h, some lastIdx⟩
  let newUnlabeled : Box := ⟨lx, ly, lx + w, ly + h, none⟩
  if (p1x, p1y) = (p2x, p2y) then
    (results, FinalizeOutcome.discarded)
  else if lastUnlabeled results ∧ mode = Mode.manual then
    (results, FinalizeOutcome.pendingLabelRequired)
  else if mode = Mode.auto then
    ((results ++ [newLabeled]).map
       (fun b => if b.label = none then { b with label := some lastIdx } else b),
     FinalizeOutcome.appended)
  else
    (results ++ [newUnlabeled], FinalizeOutcome.appended)

/-- Embeds `ImageWidget.markBox` (src/main.py lines 307-325): records the key
as `last_idx` and, when the store is non-empty, attaches the label to the last
box (appending it to a 4-field box, overwriting it on a 5-field box). -/
def markBox (results : List Box) (idx : ℕ) : ℕ × List Box :=
  (idx,
   match results.getLast? with
   | none => results
   | some b =>
     match b.label with
     | none => results.dropLast ++ [{ b with label := some idx }]
     | some _ => results.dropLast ++ [{ b with label := some idx }])

/-- Embeds the right-button branch of `ImageWidget.mousePressEvent`
(src/main.py lines 139-148): removes the first box in insertion order whose
rectangle contains the click point. -/
def removeBoxAt (results : List Box) (x y : ℤ) : List Box :=
  match results.findIdx?
      (fun b => b.lx ≤ x && x ≤ b.rx && b.ly ≤ y && y ≤ b.ry) with
  | none => results
  | some i => results.eraseIdx i

/-- Embeds `ImageWidget.cancelLast` (src/main.py lines 273-281): pops the most
recently added box when the store is non-empty. -/
def cancelLast (results : List Box) : List Box :=
  if results = [] then results else results.dropLast

/-- Embeds `ImageWidget.resetResult` (src/main.py lines 301-305). -/
def resetResult : List Box := []

/-- C1: claimed, any rect of zero width or zero height is rejected.  The code
only rejects when the two endpoints coincide: releasing at `(0,5)` after
pressing at `(0,0)` (manual mode, empty store) appends the zero-width box
`[0, 0, 0, 5]` to the store. -/
theorem zero_width_box_is_stored_c1 :
    (mouseReleaseEvent Mode.manual 0 [] 0 0 0 5).1 = [⟨0, 0, 0, 5, none⟩] ∧
    ∃ b ∈ (mouseReleaseEvent Mode.manual 0 [] 0 0 0 5).1, b.rx - b.lx = 0 := by
  constructor
  · decide
  · exact ⟨⟨0, 0, 0, 5, none⟩, by decide, rfl⟩

/-- C4: with a non-empty store whose last box is unlabeled, finalizing a rect
whose endpoints differ in manual mode returns the `PendingLabelRequired`
warning and leaves the store unchanged. -/
theorem manual_guard_c4 (results : List Box) (lastIdx : ℕ)
    (p1x p1y p2x p2y : ℤ)
    (hlast : lastUnlabeled results = true)
    (hp : (p1x, p1y) ≠ (p2x, p2y)) :
    mouseReleaseEvent Mode.manual lastIdx results p1x p1y p2x p2y =
      (results, FinalizeOutcome.pendingLabelRequired) := by
  simp [mouseReleaseEvent, hp, hlast]

/-- Concrete instance of `manual_guard_c4`: one unlabeled box, second rect
drawn from `(0,0)` to `(3,4)` in manual mode. -/
theorem manual_guard_c4_witness :
    lastUnlabeled [⟨1, 1, 2, 2, none⟩] = true ∧
    ((0, 0) : ℤ × ℤ) ≠ (3, 4) ∧
    mouseReleaseEvent Mode.manual 0 [⟨1, 1, 2, 2, none⟩] 0 0 3 4 =
      ([⟨1, 1, 2, 2, none⟩], FinalizeOutcome.pendingLabelRequired) :=
  ⟨by decide, by decide,
   manual_guard_c4 [⟨1, 1, 2, 2, none⟩] 0 0 0 3 4 (by decide) (by decide)⟩

/-- C3: finalizing a non-degenerate rect in auto mode appends the box labeled
with `last_idx` and backfills `last_idx` into every unlabeled box already in
the store; afterwards every box in the store is labeled. -/
theorem auto_backfill_c3 (results : List Box) (lastIdx : ℕ)
    (p1x p1y p2x p2y : ℤ)
    (hx : p1x ≠ p2x) (hy : p1y ≠ p2y)
    (hpend : ∃ b ∈ results, b.label = none) :
    (mouseReleaseEvent Mode.auto lastIdx results p1x p1y p2x p2y).1 =
      (results ++ [Box.mk (min p1x p2x) (min p1y p2y)
                    (min p1x p2x + |p1x - p2x|) (min p1y p2y + |p1y - p2y|)
                    (some lastIdx)]).map
        (fun b => if b.label = none then { b with label := some lastIdx } else b) ∧
    ∀ b ∈ (mouseReleaseEvent Mode.auto lastIdx results p1x p1y p2x p2y).1,
      b.label.isSome = true := by
  have hres :
      (mouseReleaseEvent Mode.auto lastIdx results p1x p1y p2x p2y).1 =
        (results ++ [Box.mk (min p1x p2x) (min p1y p2y)
                      (min p1x p2x + |p1x - p2x|) (min p1y p2y + |p1y - p2y|)
                      (some lastIdx)]).map
          (fun b => if b.label = none then { b with label := some lastIdx } else b) := by
    simp [mouseReleaseEvent, hx]
  refine ⟨hres, ?_⟩
  intro b hb
  rw [hres] at hb
  obtain ⟨a, _, rfl⟩ := List.mem_map.1 hb
  by_cases ha : a.label = none
  · simp [ha]
  · simp [ha, Option.isSome_iff_ne_none]

/-- Concrete instance of `auto_backfill_c3`: one unlabeled box in the store,
a rect drawn from `(5,5)` to `(7,9)` in auto mode with `last_idx = 2`. -/
theorem auto_backfill_c3_witness :
    (5 : ℤ) ≠ 7 ∧ (5 : ℤ) ≠ 9 ∧
    (∃ b ∈ [Box.mk 0 0 1 1 none], b.label = none) ∧
    ∀ b ∈ (mouseReleaseEvent Mode.auto 2 [Box.mk 0 0 1 1 none] 5 5 7 9).1,
      b.label.isSome = true :=
  ⟨by decide, by decide, by decide,
   (auto_backfill_c3 [Box.mk 0 0 1 1 none] 2 5 5 7 9 (by decide) (by decide)
     (by decide)).2⟩

/-- The spec's BoxStore invariant: every box strictly before the last one is
labeled (at most the last box may be unlabeled). -/
def noPendingExceptLast (results : List Box) : Prop :=
  ∀ b ∈ results.dropLast, b.label.isSome = true

instance (results : List Box) : Decidable (noPendingExceptLast results) :=
  List.decidableBAll _ _

/-- When the invariant holds and the last box is not unlabeled, every box in
the store is labeled. -/
lemma all_labeled_of_not_lastUnlabeled {l : List Box}
    (h : noPendingExceptLast l) (hl : lastUnlabeled l = false) :
    ∀ b ∈ l, b.label.isSome = true := by
  intro b hb
  rcases eq_or_ne l [] with rfl | hne
  · simp at hb
  · rw [← List.dropLast_concat_getLast hne] at hb
    rcases List.mem_append.1 hb with h1 | h2
    · exact h b h1
    · have hb' : b = l.getLast hne := by simpa using h2
      subst hb'
      have hl' : (l.getLast hne).label.isNone = false := by
        unfold lastUnlabeled at hl
        rw [List.getLast?_eq_getLast_of_ne_nil hne] at hl
        simpa using hl
      cases hlab : (l.getLast hne).label with
      | none => rw [hlab] at hl'; simp at hl'
      | some k => simp [hlab]

/-- `markBox` either leaves the store unchanged (empty store) or replaces the
last box by the same box carrying the new label. -/
lemma markBox_snd (results : List Box) (idx : ℕ) :
    (markBox results idx).2 = results ∨
    ∃ b, results.getLast? = some b ∧
      (markBox results idx).2 =
        results.dropLast ++ [{ b with label := some idx }] := by
  unfold markBox
  cases hlast : results.getLast? with
  | none => left; rfl
  | some b =>
    right
    refine ⟨b, rfl, ?_⟩
    show (match b.label with
      | none => results.dropLast ++ [{ b with label := some idx }]
      | some _ => results.dropLast ++ [{ b with label := some idx }]) =
      results.dropLast ++ [{ b with label := some idx }]
    cases b.label <;> rfl

/-- `removeBoxAt` either leaves the store unchanged or erases one index. -/
lemma removeBoxAt_cases (results : List Box) (x y : ℤ) :
    removeBoxAt results x y = results ∨
    ∃ i, removeBoxAt results x y = results.eraseIdx i := by
  unfold removeBoxAt
  cases results.findIdx?
      (fun b => b.lx ≤ x && x ≤ b.rx && b.ly ≤ y && y ≤ b.ry) with
  | none => left; rfl
  | some i => right; exact ⟨i, rfl⟩

/-- Membership in the `dropLast` of an `eraseIdx` implies membership in the
original list's `dropLast`. -/
lemma mem_dropLast_eraseIdx {α : Type} {b : α} :
    ∀ (xs : List α) (i : ℕ), b ∈ (xs.eraseIdx i).dropLast → b ∈ xs.dropLast := by
  intro xs
  induction xs with
  | nil => intro i h; simp at h
  | cons x t ih =>
    intro i h
    cases i with
    | zero =>
      rw [List.eraseIdx_cons_zero] at h
      cases t with
      | nil => simp at h
      | cons y u =>
        rw [List.dropLast_cons₂]
        exact List.mem_cons_of_mem _ h
    | succ j =>
      rw [List.eraseIdx_cons_succ] at h
      cases he : t.eraseIdx j with
      | nil => rw [he] at h; simp at h
      | cons z w =>
        rw [he, List.dropLast_cons₂] at h
        rcases List.mem_cons.1 h with rfl | h2
        · have ht : t ≠ [] := by
            intro h0
            rw [h0] at he
            simp [List.eraseIdx] at he
          cases t with
          | nil => exact absurd rfl ht
          | cons y u =>
            rw [List.dropLast_cons₂]
            exact List.mem_cons_self _ _
        · have h3 : b ∈ (t.eraseIdx j).dropLast := by rw [he]; exact h2
          have h4 := ih j h3
          cases t with
          | nil => simp at h4
          | cons y u =>
            rw [List.dropLast_cons₂]
            exact List.mem_cons_of_mem _ h4

/-- C2: every box-store operation (finalize in either mode, markBox,
right-click removal, undo, reset) preserves the invariant that at most the
last box in the store is unlabeled. -/
theorem invariant_at_most_last_unlabeled_c2 (results : List Box)
    (h : noPendingExceptLast results) :
    (∀ mode lastIdx p1x p1y p2x p2y,
       noPendingExceptLast
         (mouseReleaseEvent mode lastIdx results p1x p1y p2x p2y).1) ∧
    (∀ idx, noPendingExceptLast (markBox results idx).2) ∧
    (∀ x y, noPendingExceptLast (removeBoxAt results x y)) ∧
    noPendingExceptLast (cancelLast results) ∧
    noPendingExceptLast resetResult := by
  refine ⟨?_, ?_, ?_, ?_, ?_⟩
  · intro mode lastIdx p1x p1y p2x p2y
    unfold mouseReleaseEvent
    split_ifs with h1 h2 h3
    · exact h
    · exact h
    · intro b hb
      have hb' := List.mem_of_mem_dropLast hb
      obtain ⟨a, _, rfl⟩ := List.mem_map.1 hb'
      by_cases ha : a.label = none
      · simp [ha]
      · simp [ha, Option.isSome_iff_ne_none]
    · have hmode : mode = Mode.manual := by
        cases mode
        · rfl
        · exact absurd rfl h3
      have hl : lastUnlabeled results = false := by
        rcases Bool.eq_false_or_eq_true (lastUnlabeled results) with ht | hf
        · exact absurd ⟨ht, hmode⟩ h2
        · exact hf
      intro b hb
      rw [List.dropLast_concat] at hb
      exact all_labeled_of_not_lastUnlabeled h hl b hb
  · intro idx
    rcases markBox_snd results idx with heq | ⟨b, _, heq⟩
    · rw [heq]; exact h
    · rw [heq]
      intro c hc
      rw [List.dropLast_concat] at hc
      exact h c hc
  · intro x y
    rcases removeBoxAt_cases results x y with heq | ⟨i, heq⟩
    · rw [heq]; exact h
    · rw [heq]
      intro b hb
      exact h b (mem_dropLast_eraseIdx results i hb)
  · unfold cancelLast
    split_ifs with h0
    · exact h
    · intro b hb
      exact h b (List.mem_of_mem_dropLast hb)
  · intro b hb
    simp [resetResult] at hb

/-- Concrete instance of `invariant_at_most_last_unlabeled_c2`: labeling the
last box of a store whose only unlabeled box is the last one. -/
theorem invariant_at_most_last_unlabeled_c2_witness :
    noPendingExceptLast [Box.mk 0 0 1 1 (some 0), Box.mk 2 2 3 3 none] ∧
    noPendingExceptLast
      (markBox [Box.mk 0 0 1 1 (some 0), Box.mk 2 2 3 3 none] 1).2 :=
  ⟨by decide,
   (invariant_at_most_last_unlabeled_c2
     [Box.mk 0 0 1 1 (some 0), Box.mk 2 2 3 3 none] (by decide)).2.1 1⟩

/-- Every stored box is corner-normalized: left ≤ right and top ≤ bottom. -/
def cornerOrdered (results : List Box) : Prop :=
  ∀ b ∈ results, b.lx ≤ b.rx ∧ b.ly ≤ b.ry

instance (results : List Box) : Decidable (cornerOrdered results) :=
  List.decidableBAll _ _

/-- C10: finalize stores `(min p1x p2x, min p1y p2y, min + |dx|, min + |dy|)`,
so every stored box satisfies left ≤ right and top ≤ bottom regardless of
drag direction, and every store operation preserves this. -/
theorem corner_normalized_c10 (results : List Box) (h : cornerOrdered results) :
    (∀ mode lastIdx p1x p1y p2x p2y,
       cornerOrdered (mouseReleaseEvent mode lastIdx results p1x p1y p2x p2y).1) ∧
    (∀ idx, cornerOrdered (markBox results idx).2) ∧
    (∀ x y, cornerOrdered (removeBoxAt results x y)) ∧
    cornerOrdered (cancelLast results) ∧
    cornerOrdered resetResult := by
  refine ⟨?_, ?_, ?_, ?_, ?_⟩
  · intro mode lastIdx p1x p1y p2x p2y
    unfold mouseReleaseEvent
    split_ifs with h1 h2 h3
    · exact h
    · exact h
    · intro b hb
      obtain ⟨a, ha, rfl⟩ := List.mem_map.1 hb
      have hc : a.lx ≤ a.rx ∧ a.ly ≤ a.ry := by
        rcases List.mem_append.1 ha with hm | hm
        · exact h a hm
        · have ha' : a = Box.mk (min p1x p2x) (min p1y p2y)
              (min p1x p2x + |p1x - p2x|) (min p1y p2y + |p1y - p2y|)
              (some lastIdx) := by simpa using hm
          subst ha'
          exact ⟨le_add_of_nonneg_right (abs_nonneg _),
                 le_add_of_nonneg_right (abs_nonneg _)⟩
      by_cases hal : a.label = none
      · simpa [hal] using hc
      · simpa [hal] using hc
    · intro b hb
      rcases List.mem_append.1 hb with hm | hm
      · exact h b hm
      · have hb' : b = Box.mk (min p1x p2x) (min p1y p2y)
            (min p1x p2x + |p1x - p2x|) (min p1y p2y + |p1y - p2y|)
            none := by simpa using hm
        subst hb'
        exact ⟨le_add_of_nonneg_right (abs_nonneg _),
               le_add_of_nonneg_right (abs_nonneg _)⟩
  · intro idx
    rcases markBox_snd results idx with heq | ⟨b, hlast, heq⟩
    · rw [heq]; exact h
    · rw [heq]
      intro c hc
      rcases List.mem_append.1 hc with hm | hm
      · exact h c (List.mem_of_mem_dropLast hm)
      · have hc' : c = { b with label := some idx } := by simpa using hm
        subst hc'
        have hbmem : b ∈ results := by
          obtain ⟨hne, hb⟩ :=
            List.mem_getLast?_eq_getLast (Option.mem_def.2 hlast)
          rw [hb]
          exact List.getLast_mem hne
        simpa using h b hbmem
  · intro x y
    rcases removeBoxAt_cases results x y with heq | ⟨i, heq⟩
    · rw [heq]; exact h
    · rw [heq]
      intro b hb
      exact h b ((List.eraseIdx_sublist results i).subset hb)
  · unfold cancelLast
    split_ifs with h0
    · exact h
    · intro b hb
      exact h b (List.mem_of_mem_dropLast hb)
  · intro b hb
    simp [resetResult] at hb

/-- Concrete instance of `corner_normalized_c10`: a rect dragged up-left from
`(9,9)` to `(4,2)` still yields a corner-ordered store. -/
theorem corner_normalized_c10_witness :
    cornerOrdered [Box.mk 0 0 1 1 (some 0)] ∧
    cornerOrdered
      (mouseReleaseEvent Mode.manual 0 [Box.mk 0 0 1 1 (some 0)] 9 9 4 2).1 :=
  ⟨by decide,
   (corner_normalized_c10 [Box.mk 0 0 1 1 (some 0)] (by decide)).1
     Mode.manual 0 9 9 4 2⟩

/-- Result of `MainWidget.setNextImage`'s advance path: the new store, the
remaining image list, the image now shown, the argument passed to
`writeResults` (`none` when the writer was not invoked), and whether the
"please mark the box you drew" warning popped up. -/
structure AdvanceResult where
  results : List Box
  imgList : List String
  currentImg : String
  wrote : Option (List Box)
  warned : Bool
deriving DecidableEq, Repr

/-- Embeds the advance path of `MainWidget.setNextImage` (src/main.py lines
424-455, `img=None` branch): refuses with a warning when the store's last box
is unlabeled; otherwise writes the results, resets the store, and pops the
next image from the list, falling back to the `'end.png'` placeholder when
the list is exhausted. -/
def setNextImage (results : List Box) (imgList : List String)
    (currentImg : String) : AdvanceResult :=
  if lastUnlabeled results then
    ⟨results, imgList, currentImg, none, true⟩
  else
    match imgList with
    | [] => ⟨[], [], "end.png", some results, false⟩
    | p :: rest => ⟨[], rest, p, some results, false⟩

/-- C5: advance is guarded.  When the last box is unlabeled the transition is
refused: warning surfaced, store and queue unchanged, nothing written.
Otherwise the results are committed to the writer, the store is reset, and
the next path is popped from the queue (placeholder state when empty). -/
theorem advance_guarded_c5 (results : List Box) (imgList : List String)
    (currentImg : String) :
    (lastUnlabeled results = true →
       setNextImage results imgList currentImg =
         ⟨results, imgList, currentImg, none, true⟩) ∧
    (lastUnlabeled results = false →
       (setNextImage results imgList currentImg).wrote = some results ∧
       (setNextImage results imgList currentImg).results = [] ∧
       (setNextImage results imgList currentImg).warned = false ∧
       (imgList = [] →
          setNextImage results imgList currentImg =
            ⟨[], [], "end.png", some results, false⟩) ∧
       (∀ p rest, imgList = p :: rest →
          setNextImage results imgList currentImg =
            ⟨[], rest, p, some results, false⟩)) := by
  constructor
  · intro hl
    simp [setNextImage, hl]
  · intro hl
    cases imgList with
    | nil =>
      refine ⟨?_, ?_, ?_, ?_, ?_⟩ <;> simp [setNextImage, hl]
    | cons p rest =>
      refine ⟨?_, ?_, ?_, ?_, ?_⟩
      · simp [setNextImage, hl]
      · simp [setNextImage, hl]
      · simp [setNextImage, hl]
      · intro h0; exact absurd h0 (List.cons_ne_nil p rest)
      · intro q qrest hq
        rw [hq]
        obtain ⟨rfl, rfl⟩ := List.cons.inj hq
        simp [setNextImage, hl]

/-- Concrete instance of `advance_guarded_c5`: advance with an unlabeled last
box is refused and writes nothing. -/
theorem advance_guarded_c5_witness :
    lastUnlabeled [Box.mk 0 0 1 1 none] = true ∧
    setNextImage [Box.mk 0 0 1 1 none] ["a.jpg"] "x.jpg" =
      ⟨[Box.mk 0 0 1 1 none], ["a.jpg"], "x.jpg", none, true⟩ :=
  ⟨by decide,
   (advance_guarded_c5 [Box.mk 0 0 1 1 none] ["a.jpg"] "x.jpg").1 (by decide)⟩

/-- Python 3 `round` to an integer: nearest integer, ties to even.  Models
the calls to `round(...)` in `setPixmap` and `writeResults`. -/
def pyRound (q : ℚ) : ℤ :=
  if q - ⌊q⌋ < 1 / 2 then ⌊q⌋
  else if 1 / 2 < q - ⌊q⌋ then ⌊q⌋ + 1
  else if ⌊q⌋ % 2 = 0 then ⌊q⌋ else ⌊q⌋ + 1

lemma pyRound_intCast (n : ℤ) : pyRound (n : ℚ) = n := by
  unfold pyRound
  rw [Int.floor_intCast, sub_self]
  norm_num

/-- One line of the sidecar label file: `[idx, cx, cy, w, h]` as built in
`MainWidget.writeResults`. -/
structure YoloLine where
  idx : ℕ
  cx : ℚ
  cy : ℚ
  w : ℚ
  h : ℚ
deriving DecidableEq, Repr

/-- An absolute pixel rect `(x, y, w, h)` against the original image. -/
structure PixelRect where
  x : ℤ
  y : ℤ
  w : ℤ
  h : ℤ
deriving DecidableEq, Repr

/-- A 5-field `[lx, ly, rx, ry, idx]` entry as unpacked by
`MainWidget.writeResults`. -/
structure LabeledBox where
  lx : ℤ
  ly : ℤ
  rx : ℤ
  ry : ℤ
  idx : ℕ
deriving DecidableEq, Repr

/-- The `yolo_format` computation of `MainWidget.writeResults` (src/main.py
lines 497-503): normalized center and size against the display size `W×H`. -/
def yoloFormat (W H : ℚ) (e : LabeledBox) : YoloLine :=
  ⟨e.idx,
   ((e.lx : ℚ) + (e.rx : ℚ)) / 2 / W,
   ((e.ly : ℚ) + (e.ry : ℚ)) / 2 / H,
   ((e.rx : ℚ) - (e.lx : ℚ)) / W,
   ((e.ry : ℚ) - (e.ly : ℚ)) / H⟩

/-- The crop-coordinate computation of `MainWidget.writeResults` (src/main.py
lines 516-519): converts a normalized line back to absolute pixels against
the original resolution `ow×oh`.  The width is rounded first and the rounded
value is used for the corner. -/
def toOriginalPixels (t : YoloLine) (ow oh : ℚ) : PixelRect :=
  let w := pyRound (t.w * ow)
  let h := pyRound (t.h * oh)
  let x := pyRound (t.cx * ow - (w : ℚ) / 2)
  let y := pyRound (t.cy * oh - (h : ℚ) / 2)
  ⟨x, y, w, h⟩

/-- The round-trip against `ow = W`, `oh = H` is exact: the rounded width and
height are the original pixel extents and the rounded corner is the original
corner. -/
lemma toOriginalPixels_yoloFormat (e : LabeledBox) (W H : ℚ)
    (hW : W ≠ 0) (hH : H ≠ 0) :
    toOriginalPixels (yoloFormat W H e) W H =
      ⟨e.lx, e.ly, e.rx - e.lx, e.ry - e.ly⟩ := by
  unfold toOriginalPixels yoloFormat
  have hw : pyRound (((e.rx : ℚ) - (e.lx : ℚ)) / W * W) = e.rx - e.lx := by
    rw [div_mul_cancel₀ _ hW,
        show ((e.rx : ℚ) - (e.lx : ℚ)) = ((e.rx - e.lx : ℤ) : ℚ) by push_cast; ring,
        pyRound_intCast]
  have hh : pyRound (((e.ry : ℚ) - (e.ly : ℚ)) / H * H) = e.ry - e.ly := by
    rw [div_mul_cancel₀ _ hH,
        show ((e.ry : ℚ) - (e.ly : ℚ)) = ((e.ry - e.ly : ℤ) : ℚ) by push_cast; ring,
        pyRound_intCast]
  simp only [hw, hh]
  have hx : pyRound (((e.lx : ℚ) + (e.rx : ℚ)) / 2 / W * W
      - ((e.rx - e.lx : ℤ) : ℚ) / 2) = e.lx := by
    rw [div_mul_cancel₀ _ hW,
        show ((e.lx : ℚ) + (e.rx : ℚ)) / 2 - ((e.rx - e.lx : ℤ) : ℚ) / 2
          = ((e.lx : ℤ) : ℚ) by push_cast; ring,
        pyRound_intCast]
  have hy : pyRound (((e.ly : ℚ) + (e.ry : ℚ)) / 2 / H * H
      - ((e.ry - e.ly : ℤ) : ℚ) / 2) = e.ly := by
    rw [div_mul_cancel₀ _ hH,
        show ((e.ly : ℚ) + (e.ry : ℚ)) / 2 - ((e.ry - e.ly : ℤ) : ℚ) / 2
          = ((e.ly : ℤ) : ℚ) by push_cast; ring,
        pyRound_intCast]
  simp only [hx, hy]

/-- C6: serializing a box to the normalized tuple at display size `W×H` and
converting back to absolute pixels against `ow = W`, `oh = H` reconstructs
every coordinate of the box within 1-pixel tolerance. -/
theorem roundtrip_c6 (lx ly rx ry : ℤ) (idx : ℕ) (W H : ℚ)
    (hW : 0 < W) (hH : 0 < H) :
    |(toOriginalPixels (yoloFormat W H ⟨lx, ly, rx, ry, idx⟩) W H).x - lx| ≤ 1 ∧
    |(toOriginalPixels (yoloFormat W H ⟨lx, ly, rx, ry, idx⟩) W H).y - ly| ≤ 1 ∧
    |(toOriginalPixels (yoloFormat W H ⟨lx, ly, rx, ry, idx⟩) W H).x
       + (toOriginalPixels (yoloFormat W H ⟨lx, ly, rx, ry, idx⟩) W H).w - rx| ≤ 1 ∧
    |(toOriginalPixels (yoloFormat W H ⟨lx, ly, rx, ry, idx⟩) W H).y
       + (toOriginalPixels (yoloFormat W H ⟨lx, ly, rx, ry, idx⟩) W H).h - ry| ≤ 1 := by
  rw [toOriginalPixels_yoloFormat ⟨lx, ly, rx, ry, idx⟩ W H hW.ne' hH.ne']
  refine ⟨?_, ?_, ?_, ?_⟩
  · rw [show (PixelRect.mk lx ly (rx - lx) (ry - ly)).x - lx = 0 by simp]
    norm_num
  · rw [show (PixelRect.mk lx ly (rx - lx) (ry - ly)).y - ly = 0 by simp]
    norm_num
  · rw [show (PixelRect.mk lx ly (rx - lx) (ry - ly)).x
        + (PixelRect.mk lx ly (rx - lx) (ry - ly)).w - rx = 0 by simp]
    norm_num
  · rw [show (PixelRect.mk lx ly (rx - lx) (ry - ly)).y
        + (PixelRect.mk lx ly (rx - lx) (ry - ly)).h - ry = 0 by simp]
    norm_num

/-- Concrete instance of `roundtrip_c6`: the box `(10,20)-(30,40)` at display
size `100×50` comes back exactly. -/
theorem roundtrip_c6_witness :
    (0 : ℚ) < 100 ∧ (0 : ℚ) < 50 ∧
    (|(toOriginalPixels (yoloFormat 100 50 ⟨10, 20, 30, 40, 0⟩) 100 50).x - 10| ≤ 1 ∧
     |(toOriginalPixels (yoloFormat 100 50 ⟨10, 20, 30, 40, 0⟩) 100 50).y - 20| ≤ 1 ∧
     |(toOriginalPixels (yoloFormat 100 50 ⟨10, 20, 30, 40, 0⟩) 100 50).x
        + (toOriginalPixels (yoloFormat 100 50 ⟨10, 20, 30, 40, 0⟩) 100 50).w - 30| ≤ 1 ∧
     |(toOriginalPixels (yoloFormat 100 50 ⟨10, 20, 30, 40, 0⟩) 100 50).y
        + (toOriginalPixels (yoloFormat 100 50 ⟨10, 20, 30, 40, 0⟩) 100 50).h - 40| ≤ 1) :=
  ⟨by norm_num, by norm_num,
   roundtrip_c6 10 20 30 40 0 100 50 (by norm_num) (by norm_num)⟩

/-- Crop output filename `<image-stem>-<labelName>-<boxOrdinal>.jpg` as built
in `MainWidget.writeResults` (src/main.py line 524). -/
def cropFileName (baseName : String) (keyConfig : List String)
    (idx i : ℕ) : String :=
  baseName.dropRight 4 ++ "-" ++ keyConfig.getD idx "" ++ "-"
    ++ toString i ++ ".jpg"

/-- Observable effects of one `MainWidget.writeResults` call: the lines that
end up in the sidecar file (`none` when the file is not touched because no
image is loaded, `some []` when the file is created/left empty), and the crop
files produced. -/
structure WriteOutput where
  sidecarLines : Option (List YoloLine)
  crops : List (String × PixelRect)
deriving DecidableEq, Repr

/-- Embeds `MainWidget.writeResults` (src/main.py lines 478-530).  Nothing
happens while the status label still reads `'Ready'` (no image loaded).
Otherwise: an empty `res` creates the empty sidecar file; each box appends
one normalized line; and with crop mode on, each box additionally produces a
crop at the rect computed by `toOriginalPixels` against the re-decoded
original resolution `ow×oh`. -/
def writeResults (fileName : String) (W H : ℚ) (cropMode : Bool)
    (ow oh : ℚ) (keyConfig : List String) (baseName : String)
    (res : List LabeledBox) : WriteOutput :=
  if fileName = "Ready" then ⟨none, []⟩
  else
    ⟨some (res.map (yoloFormat W H)),
     if cropMode then
       res.enum.map (fun p =>
         (cropFileName baseName keyConfig p.2.idx p.1,
          toOriginalPixels (yoloFormat W H p.2) ow oh))
     else []⟩

/-- C8: committing an empty box list (with an image loaded) creates an empty
sidecar file, writes no normalized lines, and produces zero crop files even
when crop mode is enabled. -/
theorem empty_commit_c8 (fileName : String) (W H ow oh : ℚ)
    (cropMode : Bool) (keyConfig : List String) (baseName : String)
    (h : fileName ≠ "Ready") :
    writeResults fileName W H cropMode ow oh keyConfig baseName [] =
      ⟨some [], []⟩ := by
  cases cropMode <;> simp [writeResults, h]

/-- Concrete instance of `empty_commit_c8`: crop mode on, no boxes. -/
theorem empty_commit_c8_witness :
    ("img.jpg" : String) ≠ "Ready" ∧
    writeResults "img.jpg" 100 50 true 100 50 ["cat"] "img.jpg" [] =
      ⟨some [], []⟩ :=
  ⟨by decide, empty_commit_c8 "img.jpg" 100 50 100 50 true ["cat"] "img.jpg"
    (by decide)⟩

/-- Embeds the sizing logic of `ImageWidget.setPixmap` (src/main.py lines
248-271): when the image height exceeds 80% of the screen height, both sides
are scaled by `(0.8·screenHeight)/H` and rounded; otherwise the size is kept
as is. -/
def setPixmapSize (W H screenHeight : ℤ) : ℤ × ℤ :=
  if (screenHeight : ℚ) * (8 / 10) < (H : ℚ) then
    ((pyRound ((W : ℚ) * (((screenHeight : ℚ) * (8 / 10)) / (H : ℚ)))),
     (pyRound ((H : ℚ) * (((screenHeight : ℚ) * (8 / 10)) / (H : ℚ)))))
  else
    (W, H)

/-- C9: the displayed size equals `round(side · scale)` with
`scale = min(1, 0.8·screenHeight/H)`; the same scale is applied to both
sides, it never exceeds 1, and it is exactly 1 whenever the image already
fits in 80% of the screen height. -/
theorem display_geometry_c9 (W H S : ℤ) (hH : 0 < H) :
    setPixmapSize W H S =
      (pyRound ((W : ℚ) * min 1 ((8 / 10) * (S : ℚ) / (H : ℚ))),
       pyRound ((H : ℚ) * min 1 ((8 / 10) * (S : ℚ) / (H : ℚ)))) ∧
    min 1 ((8 / 10) * (S : ℚ) / (H : ℚ)) ≤ 1 ∧
    ((H : ℚ) ≤ (8 / 10) * (S : ℚ) →
       min 1 ((8 / 10) * (S : ℚ) / (H : ℚ)) = 1) := by
  have hH' : (0 : ℚ) < (H : ℚ) := by exact_mod_cast hH
  refine ⟨?_, min_le_left _ _, ?_⟩
  · unfold setPixmapSize
    split_ifs with hc
    · have hle : (8 / 10) * (S : ℚ) / (H : ℚ) ≤ 1 := by
        rw [div_le_one hH']
        linarith
      rw [min_eq_right hle,
          show (S : ℚ) * (8 / 10) / (H : ℚ) = (8 / 10) * (S : ℚ) / (H : ℚ)
            by ring]
    · have h1 : (1 : ℚ) ≤ (8 / 10) * (S : ℚ) / (H : ℚ) := by
        rw [le_div_iff₀ hH']
        push_neg at hc
        linarith
      rw [min_eq_left h1, mul_one, mul_one, pyRound_intCast, pyRound_intCast]
  · intro hle
    have h1 : (1 : ℚ) ≤ (8 / 10) * (S : ℚ) / (H : ℚ) := by
      rw [le_div_iff₀ hH']
      linarith
    exact min_eq_left h1

/-- Concrete instance of `display_geometry_c9`: a 100×200 image on a
screen of height 100 is displayed at 40×80. -/
theorem display_geometry_c9_witness :
    (0 : ℤ) < 200 ∧ setPixmapSize 100 200 100 = (40, 80) :=
  ⟨by norm_num, by
    have h := (display_geometry_c9 100 200 100 (by norm_num)).1
    rw [h]
    norm_num [pyRound, min_def, Prod.ext_iff]⟩

/-- The sidecar path `imgPath[:-4] + '.txt'` used for the skip check in
`MainWidget.registerInputPath` (src/main.py line 579). -/
def sidecarName (p : String) : String := p.dropRight 4 ++ ".txt"

/-- Embeds the scan of `MainWidget.registerInputPath` (src/main.py lines
569-582): `imgList` is the glob of `*.jpg` then `*.png` files of the
directory, `total_imgs` its length; every image whose sidecar `.txt` exists
is collected into `to_skip` and then removed from the list one by one. -/
def registerInputPath (jpgFiles pngFiles : List String)
    (txtExists : String → Bool) : ℕ × List String :=
  let imgList := jpgFiles ++ pngFiles
  let totalImgs := imgList.length
  let toSkip := imgList.filter (fun p => txtExists (sidecarName p))
  (totalImgs, toSkip.foldl (fun acc s => acc.erase s) imgList)

/-- Erasing the elements of `ys` one by one from a duplicate-free list is the
same as filtering out membership in `ys`. -/
lemma foldl_erase_eq_filter {α : Type} [DecidableEq α] :
    ∀ (ys xs : List α), xs.Nodup →
      ys.foldl (fun acc y => acc.erase y) xs
        = xs.filter (fun x => decide (x ∉ ys)) := by
  intro ys
  induction ys with
  | nil =>
    intro xs _
    simp
  | cons y t ih =>
    intro xs h
    rw [List.foldl_cons, ih (xs.erase y) (h.erase y)]
    rw [h.erase_eq_filter y, List.filter_filter]
    apply List.filter_congr
    intro x _
    by_cases hxy : x = y <;> simp [hxy, List.mem_cons, not_or, Bool.and_comm]

/-- C7: `total_imgs` counts every `.jpg`/`.png` file of the directory, and
the remaining queue is that collection minus the images whose sidecar `.txt`
already exists. -/
theorem directory_scan_c7 (jpgFiles pngFiles : List String)
    (txtExists : String → Bool)
    (hnd : (jpgFiles ++ pngFiles).Nodup) :
    (registerInputPath jpgFiles pngFiles txtExists).1 =
      jpgFiles.length + pngFiles.length ∧
    (registerInputPath jpgFiles pngFiles txtExists).2 =
      (jpgFiles ++ pngFiles).filter
        (fun p => !txtExists (sidecarName p)) := by
  constructor
  · simp [registerInputPath]
  · show ((jpgFiles ++ pngFiles).filter
        (fun p => txtExists (sidecarName p))).foldl
        (fun acc s => acc.erase s) (jpgFiles ++ pngFiles) = _
    rw [foldl_erase_eq_filter _ _ hnd]
    apply List.filter_congr
    intro x hx
    by_cases hp : txtExists (sidecarName x) = true
    · have hmem : x ∈ (jpgFiles ++ pngFiles).filter
          (fun p => txtExists (sidecarName p)) := List.mem_filter.2 ⟨hx, hp⟩
      rw [hp]
      simp only [Bool.not_true]
      exact decide_eq_false (fun hc => hc hmem)
    · have hp' : txtExists (sidecarName x) = false := by
        rcases Bool.eq_false_or_eq_true (txtExists (sidecarName x)) with h1 | h1
        · exact absurd h1 hp
        · exact h1
      have hmem : x ∉ (jpgFiles ++ pngFiles).filter
          (fun p => txtExists (sidecarName p)) := by
        intro hc
        exact hp (List.mem_filter.1 hc).2
      rw [hp']
      simp only [Bool.not_false]
      exact decide_eq_true hmem

/-- Concrete instance of `directory_scan_c7`: 5 eligible images of which 2
already have sidecar files yield `total_imgs = 5` and a remaining queue of
length 3. -/
theorem directory_scan_c7_witness :
    (["a.jpg", "b.jpg", "c.jpg"] ++ ["d.png", "e.png"] : List String).Nodup ∧
    (registerInputPath ["a.jpg", "b.jpg", "c.jpg"] ["d.png", "e.png"]
        (fun s => s == "a.txt" || s == "d.txt")).1 = 5 ∧
    (registerInputPath ["a.jpg", "b.jpg", "c.jpg"] ["d.png", "e.png"]
        (fun s => s == "a.txt" || s == "d.txt")).2.length = 3 := by
  have h := directory_scan_c7 ["a.jpg", "b.jpg", "c.jpg"] ["d.png", "e.png"]
    (fun s => s == "a.txt" || s == "d.txt") (by decide)
  refine ⟨by decide, ?_, ?_⟩
  · rw [h.1]
    rfl
  · rw [h.2]
    rfl

end BBoxTool
